import Mathlib

/-! Verification of the Huenit pen-plotter pipeline (bobrossskill repository).

Shallow embedding of the path-producing front ends (`huenit_svg.py`,
`huenit_draw.py`, `huenit_write.py`): SVG path-data parsing, geometry
normalization, the segment-to-G-code drawing executor, the serial ack wait,
and the stroke-font width calculation.  Python floats are modelled as exact
rationals; the trigonometric circle/ellipse flatteners are modelled over the
reals.  The SVG path parser is modelled at the token level: `tokenize_path`
produces only command letters of the class `[MmLlHhVvCcQqSsTtAaZz]` and
numeric literals, which the `Tok` type captures. -/

set_option maxHeartbeats 4000000
set_option maxRecDepth 100000

/-- A drawing segment, `('move'|'line', x, y)` in the Python sources. -/
inductive Seg (α : Type) where
  | move (x y : α)
  | line (x y : α)
  deriving DecidableEq, Repr

def segX {α : Type} : Seg α → α
  | Seg.move x _ => x
  | Seg.line x _ => x

def segY {α : Type} : Seg α → α
  | Seg.move _ y => y
  | Seg.line _ y => y

/-- CURVE_STEPS = 20, line segments per bezier curve (huenit_svg.py). -/
def curveSteps : Nat := 20

/-- CIRCLE_STEPS = 48, line segments per full circle/ellipse (huenit_svg.py). -/
def circleSteps : Nat := 48

/-- A token of `tokenize_path`: a path command letter or a numeric literal. -/
inductive Tok where
  | cmd (c : Char)
  | num (q : ℚ)
  deriving DecidableEq, Repr

def Tok.isNum : Tok → Bool
  | Tok.num _ => true
  | Tok.cmd _ => false

/-- The mutable state of the `parse_path_d` loop: current command, current
position `(cx, cy)`, subpath start `(sx, sy)`, and the stored control point
`last_ctrl` for S/T smooth continuations. -/
structure PState where
  cmd : Option Char
  cx : ℚ
  cy : ℚ
  sx : ℚ
  sy : ℚ
  lastCtrl : Option (ℚ × ℚ)
  deriving DecidableEq, Repr

def initState : PState := ⟨none, 0, 0, 0, 0, none⟩

/-- Model of `next_nums(n)` of `parse_path_d`: take up to `n` leading numeric tokens;
each missing argument (end of input or a command letter) is read as 0.0 and
the index is not advanced, so once a non-number is hit the rest pad with 0. -/
def nextNums : Nat → List Tok → List ℚ × List Tok
  | 0, ts => ([], ts)
  | n + 1, Tok.num q :: rest =>
    let r := nextNums n rest
    (q :: r.1, r.2)
  | n + 1, ts => (List.replicate (n + 1) (0 : ℚ), ts)

/-- Model of `cubic_bezier(p0, p1, p2, p3, steps)` of huenit_svg.py. -/
def cubic_bezier (p0 p1 p2 p3 : ℚ × ℚ) (steps : Nat) : List (ℚ × ℚ) :=
  (List.range (steps + 1)).map fun i =>
    let t : ℚ := (i : ℚ) / (steps : ℚ)
    let u : ℚ := 1 - t
    (u^3 * p0.1 + 3*u^2*t*p1.1 + 3*u*t^2*p2.1 + t^3*p3.1,
     u^3 * p0.2 + 3*u^2*t*p1.2 + 3*u*t^2*p2.2 + t^3*p3.2)

/-- Model of `quadratic_bezier(p0, p1, p2, steps)` of huenit_svg.py. -/
def quadratic_bezier (p0 p1 p2 : ℚ × ℚ) (steps : Nat) : List (ℚ × ℚ) :=
  (List.range (steps + 1)).map fun i =>
    let t : ℚ := (i : ℚ) / (steps : ℚ)
    let u : ℚ := 1 - t
    (u^2 * p0.1 + 2*u*t*p1.1 + t^2*p2.1,
     u^2 * p0.2 + 2*u*t*p1.2 + t^2*p2.2)

/-- The command-letter class `[MmLlHhVvCcQqSsTtAaZz]` of `parse_path_d`. -/
def isPathCmd (c : Char) : Bool :=
  c == 'M' || c == 'm' || c == 'L' || c == 'l' || c == 'H' || c == 'h' ||
  c == 'V' || c == 'v' || c == 'C' || c == 'c' || c == 'Q' || c == 'q' ||
  c == 'S' || c == 's' || c == 'T' || c == 't' || c == 'A' || c == 'a' ||
  c == 'Z' || c == 'z'

/-- Python's `abs` on floats, modelled computably on ℚ; it equals the
lattice `|q|` (`pyAbs_eq_abs` below), which is kept out of the executable
definitions only because the Mathlib instance does not kernel-reduce. -/
def pyAbs (q : ℚ) : ℚ := if q < 0 then -q else q

/-- The segments appended by the Z/z branch: close the subpath back to its
start if the current point is not already within 0.01 of it. -/
def zSegs (st : PState) : List (Seg ℚ) :=
  if 1/100 < pyAbs (st.cx - st.sx) ∨ 1/100 < pyAbs (st.cy - st.sy) then
    [Seg.line st.sx st.sy]
  else []

/-- The state update of the Z/z branch: current position resets to the
subpath start and the current command is cleared. -/
def zReset (st : PState) : PState :=
  { st with cx := st.sx, cy := st.sy, cmd := none }

/-- One execution of the command-dispatch `if`-chain of `parse_path_d` for
command `c`, consuming arguments from `ts`.  Returns the appended segments,
the updated state, and the remaining tokens. -/
def dispatch (c : Char) (st : PState) (ts : List Tok) :
    List (Seg ℚ) × PState × List Tok :=
  if c == 'M' || c == 'm' then
    let p := nextNums 2 ts
    let x := (if c == 'm' then p.1.getD 0 0 + st.cx else p.1.getD 0 0)
    let y := (if c == 'm' then p.1.getD 1 0 + st.cy else p.1.getD 1 0)
    ([Seg.move x y],
     { st with sx := x, sy := y, cx := x, cy := y,
               cmd := some (if c == 'M' then 'L' else 'l') }, p.2)
  else if c == 'L' || c == 'l' then
    let p := nextNums 2 ts
    let x := (if c == 'l' then p.1.getD 0 0 + st.cx else p.1.getD 0 0)
    let y := (if c == 'l' then p.1.getD 1 0 + st.cy else p.1.getD 1 0)
    ([Seg.line x y], { st with cx := x, cy := y }, p.2)
  else if c == 'H' || c == 'h' then
    let p := nextNums 1 ts
    let x := (if c == 'h' then p.1.getD 0 0 + st.cx else p.1.getD 0 0)
    ([Seg.line x st.cy], { st with cx := x }, p.2)
  else if c == 'V' || c == 'v' then
    let p := nextNums 1 ts
    let y := (if c == 'v' then p.1.getD 0 0 + st.cy else p.1.getD 0 0)
    ([Seg.line st.cx y], { st with cy := y }, p.2)
  else if c == 'C' || c == 'c' then
    let p := nextNums 6 ts
    let x1 := (if c == 'c' then p.1.getD 0 0 + st.cx else p.1.getD 0 0)
    let y1 := (if c == 'c' then p.1.getD 1 0 + st.cy else p.1.getD 1 0)
    let x2 := (if c == 'c' then p.1.getD 2 0 + st.cx else p.1.getD 2 0)
    let y2 := (if c == 'c' then p.1.getD 3 0 + st.cy else p.1.getD 3 0)
    let x := (if c == 'c' then p.1.getD 4 0 + st.cx else p.1.getD 4 0)
    let y := (if c == 'c' then p.1.getD 5 0 + st.cy else p.1.getD 5 0)
    let pts := cubic_bezier (st.cx, st.cy) (x1, y1) (x2, y2) (x, y) curveSteps
    ((pts.drop 1).map (fun q => Seg.line q.1 q.2),
     { st with lastCtrl := some (x2, y2), cx := x, cy := y }, p.2)
  else if c == 'S' || c == 's' then
    let p := nextNums 4 ts
    let x2 := (if c == 's' then p.1.getD 0 0 + st.cx else p.1.getD 0 0)
    let y2 := (if c == 's' then p.1.getD 1 0 + st.cy else p.1.getD 1 0)
    let x := (if c == 's' then p.1.getD 2 0 + st.cx else p.1.getD 2 0)
    let y := (if c == 's' then p.1.getD 3 0 + st.cy else p.1.getD 3 0)
    let x1 := match st.lastCtrl with
              | some q => 2 * st.cx - q.1
              | none => st.cx
    let y1 := match st.lastCtrl with
              | some q => 2 * st.cy - q.2
              | none => st.cy
    let pts := cubic_bezier (st.cx, st.cy) (x1, y1) (x2, y2) (x, y) curveSteps
    ((pts.drop 1).map (fun q => Seg.line q.1 q.2),
     { st with lastCtrl := some (x2, y2), cx := x, cy := y }, p.2)
  else if c == 'Q' || c == 'q' then
    let p := nextNums 4 ts
    let x1 := (if c == 'q' then p.1.getD 0 0 + st.cx else p.1.getD 0 0)
    let y1 := (if c == 'q' then p.1.getD 1 0 + st.cy else p.1.getD 1 0)
    let x := (if c == 'q' then p.1.getD 2 0 + st.cx else p.1.getD 2 0)
    let y := (if c == 'q' then p.1.getD 3 0 + st.cy else p.1.getD 3 0)
    let pts := quadratic_bezier (st.cx, st.cy) (x1, y1) (x, y) curveSteps
    ((pts.drop 1).map (fun q => Seg.line q.1 q.2),
     { st with lastCtrl := some (x1, y1), cx := x, cy := y }, p.2)
  else if c == 'T' || c == 't' then
    let p := nextNums 2 ts
    let x := (if c == 't' then p.1.getD 0 0 + st.cx else p.1.getD 0 0)
    let y := (if c == 't' then p.1.getD 1 0 + st.cy else p.1.getD 1 0)
    let x1 := match st.lastCtrl with
              | some q => 2 * st.cx - q.1
              | none => st.cx
    let y1 := match st.lastCtrl with
              | some q => 2 * st.cy - q.2
              | none => st.cy
    let pts := quadratic_bezier (st.cx, st.cy) (x1, y1) (x, y) curveSteps
    ((pts.drop 1).map (fun q => Seg.line q.1 q.2),
     { st with lastCtrl := some (x1, y1), cx := x, cy := y }, p.2)
  else if c == 'A' || c == 'a' then
    let p := nextNums 7 ts
    let x := (if c == 'a' then p.1.getD 5 0 + st.cx else p.1.getD 5 0)
    let y := (if c == 'a' then p.1.getD 6 0 + st.cy else p.1.getD 6 0)
    ([Seg.line x y], { st with cx := x, cy := y }, p.2)
  else if c == 'Z' || c == 'z' then
    (zSegs st, zReset st, ts)
  else ([], st, ts)

/-- The `while i < len(tokens)` loop of `parse_path_d`, with a fuel argument
making the variable token consumption structurally recursive.  Every loop
step consumes at least one token, so fuel `tokens.length + 1` never runs
out (`parseLoopF_fuel_irrelevant` below).  A numeric token while the current
command is Z (unreachable: the Z branch always clears the command) performs
the Z reset and the token is then skipped, folding the two Python loop
iterations into one step; a letter outside the command class (which
`tokenize_path` never produces) is skipped. -/
def parseLoopF : Nat → List Tok → PState → List (Seg ℚ)
  | 0, _, _ => []
  | _ + 1, [], _ => []
  | fuel + 1, Tok.cmd c :: rest, st =>
    if isPathCmd c then
      let st1 := { st with cmd := some c, lastCtrl := none }
      let r := dispatch c st1 rest
      r.1 ++ parseLoopF fuel r.2.2 r.2.1
    else parseLoopF fuel rest st
  | fuel + 1, Tok.num q :: rest, st =>
    match st.cmd with
    | none => parseLoopF fuel rest st
    | some c =>
      if c == 'Z' || c == 'z' then zSegs st ++ parseLoopF fuel rest (zReset st)
      else if isPathCmd c then
        let r := dispatch c st (Tok.num q :: rest)
        r.1 ++ parseLoopF fuel r.2.2 r.2.1
      else parseLoopF fuel rest st

/-- Run the `parse_path_d` loop from a given state over the given tokens. -/
def parseFrom (ts : List Tok) (st : PState) : List (Seg ℚ) :=
  parseLoopF (ts.length + 1) ts st

/-- Model of `parse_path_d` of huenit_svg.py, at the token level. -/
def parse_path_d (ts : List Tok) : List (Seg ℚ) :=
  parseFrom ts initState

/-- The first command letter of a token stream (leading numeric tokens are
skipped by the loop while `cmd` is still `None`). -/
def firstCmdLetter : List Tok → Option Char
  | [] => none
  | Tok.cmd c :: _ => some c
  | Tok.num _ :: rest => firstCmdLetter rest

/-- Whether a segment list is non-empty and begins with a `move` segment. -/
def headIsMove {α : Type} : List (Seg α) → Bool
  | Seg.move _ _ :: _ => true
  | _ => false

/-- Model of `rect_to_segments(x, y, w, h)` of huenit_svg.py. -/
def rect_to_segments (x y w h : ℚ) : List (Seg ℚ) :=
  [Seg.move x y, Seg.line (x + w) y, Seg.line (x + w) (y + h),
   Seg.line x (y + h), Seg.line x y]

/-- The pairing `zip(nums[0::2], nums[1::2])` of `polyline_to_segments`
(an unpaired trailing number is dropped). -/
def toPairs : List ℚ → List (ℚ × ℚ)
  | x :: y :: rest => (x, y) :: toPairs rest
  | _ => []

/-- Model of `polyline_to_segments(points_str, close)` of huenit_svg.py, taking the
already-extracted numeric tokens of the points string. -/
def polyline_to_segments (nums : List ℚ) (close : Bool) : List (Seg ℚ) :=
  match toPairs nums with
  | [] => []
  | p :: rest =>
    (Seg.move p.1 p.2 :: rest.map fun q => Seg.line q.1 q.2) ++
    (if close && !rest.isEmpty then [Seg.line p.1 p.2] else [])

/-- The `<line>` branch of `parse_svg`: a single two-point subpath. -/
def line_to_segments (x1 y1 x2 y2 : ℚ) : List (Seg ℚ) :=
  [Seg.move x1 y1, Seg.line x2 y2]

/-- Model of `circle_to_segments(cx, cy, r)` of huenit_svg.py (trigonometric, hence
over the reals). -/
noncomputable def circle_to_segments (cx cy r : ℝ) : List (Seg ℝ) :=
  (List.range (circleSteps + 1)).map fun (i : Nat) =>
    let angle : ℝ := 2 * Real.pi * (i : ℝ) / (circleSteps : ℝ)
    let x := cx + r * Real.cos angle
    let y := cy + r * Real.sin angle
    if i == 0 then Seg.move x y else Seg.line x y

/-- Model of `ellipse_to_segments(cx, cy, rx, ry)` of huenit_svg.py. -/
noncomputable def ellipse_to_segments (cx cy rx ry : ℝ) : List (Seg ℝ) :=
  (List.range (circleSteps + 1)).map fun (i : Nat) =>
    let angle : ℝ := 2 * Real.pi * (i : ℝ) / (circleSteps : ℝ)
    let x := cx + rx * Real.cos angle
    let y := cy + ry * Real.sin angle
    if i == 0 then Seg.move x y else Seg.line x y

/-- Model of `min(xs)` of `transform_segments`, for the nonempty list `s :: rest`. -/
def xMinOf (s : Seg ℚ) (rest : List (Seg ℚ)) : ℚ :=
  (rest.map segX).foldl min (segX s)

def xMaxOf (s : Seg ℚ) (rest : List (Seg ℚ)) : ℚ :=
  (rest.map segX).foldl max (segX s)

def yMinOf (s : Seg ℚ) (rest : List (Seg ℚ)) : ℚ :=
  (rest.map segY).foldl min (segY s)

def yMaxOf (s : Seg ℚ) (rest : List (Seg ℚ)) : ℚ :=
  (rest.map segY).foldl max (segY s)

/-- The per-point map of `transform_segments`: scale about the bounding-box
center and flip the Y axis, keeping the segment kind. -/
def scaleMap (scale xc yc : ℚ) : Seg ℚ → Seg ℚ
  | Seg.move x y => Seg.move ((x - xc) * scale) (-(y - yc) * scale)
  | Seg.line x y => Seg.line ((x - xc) * scale) (-(y - yc) * scale)

/-- Model of `transform_segments(segments, size_mm)` of huenit_svg.py. -/
def transform_segments (segments : List (Seg ℚ)) (size_mm : ℚ) :
    List (Seg ℚ) :=
  match segments with
  | [] => []
  | s :: rest =>
    let w := xMaxOf s rest - xMinOf s rest
    let h := yMaxOf s rest - yMinOf s rest
    if max w h = 0 then []
    else
      (s :: rest).map
        (scaleMap (size_mm / max w h)
          ((xMinOf s rest + xMaxOf s rest) / 2)
          ((yMinOf s rest + yMaxOf s rest) / 2))

/-- Modelled from the spec/claim wording (for the refinement comparison with
`transform_segments`): return an empty document when the bounding box has
zero extent on both axes, otherwise map every point `(x, y)` to
`((x - x_center) * scale, -(y - y_center) * scale)` with
`scale = size_mm / max(width, height)`. -/
def transform_segments_claim (segments : List (Seg ℚ)) (size_mm : ℚ) :
    List (Seg ℚ) :=
  match segments with
  | [] => []
  | s :: rest =>
    let w := xMaxOf s rest - xMinOf s rest
    let h := yMaxOf s rest - yMinOf s rest
    if w = 0 ∧ h = 0 then []
    else
      (s :: rest).map
        (scaleMap (size_mm / max w h)
          ((xMinOf s rest + xMaxOf s rest) / 2)
          ((yMinOf s rest + yMaxOf s rest) / 2))

/-- TRAVEL_FEED = 800 mm/min. -/
def TRAVEL_FEED : ℚ := 800

/-- DRAW_FEED = 400 mm/min (huenit_draw.py). -/
def DRAW_FEED : ℚ := 400

/-- A G-code command relevant to the drawing claims: a pen Z toggle
(`G1 Z±z_up`, abstracted to its direction) or a relative XY move with an
optional tilt-compensation Z component and a feed rate.  Parameterized by
the number type: ℚ for the executor and square, ℝ for the trigonometric
triangle and circle drawers. -/
inductive GCmd (α : Type) where
  | pen (up : Bool)
  | lin (dx dy : α) (dz : Option α) (feed : α)
  deriving DecidableEq, Repr

/-- Model of `_z_comp(dy)` of huenit_draw.py and the inline `dz`/`z_comp` logic of
`draw_segments`: the Z component `tilt_slope * dy` rides on the move only
when its magnitude exceeds 0.001 (the `:.3f` formatting of the emitted
string is presentation and is not modelled). -/
def z_comp (slope dy : ℚ) : Option ℚ :=
  let dz := slope * dy
  if 1/1000 < pyAbs dz then some dz else none

/-- The Z delta actually carried by the emitted move: `z_comp` when present,
otherwise zero. -/
def emittedZ (slope dy : ℚ) : ℚ := (z_comp slope dy).getD 0

/-- The move-suppression test `abs(dx) > 0.01 or abs(dy) > 0.01`. -/
def bigXY (dx dy : ℚ) : Bool :=
  decide (1/100 < pyAbs dx) || decide (1/100 < pyAbs dy)

/-- The mutable state of `draw_segments`: pen state and bookkept cursor. -/
structure DrawState where
  isUp : Bool
  cx : ℚ
  cy : ℚ
  deriving DecidableEq, Repr

/-- One iteration of the `for kind, x, y in segments` loop of
`draw_segments` (the `M400` motion barriers carry no displacement and are
not modelled). -/
def drawStep (slope feed : ℚ) (st : DrawState) (s : Seg ℚ) :
    List (GCmd ℚ) × DrawState :=
  match s with
  | Seg.move x y =>
    let dx := x - st.cx
    let dy := y - st.cy
    ((if st.isUp then [] else [GCmd.pen true]) ++
     (if bigXY dx dy then [GCmd.lin dx dy (z_comp slope dy) TRAVEL_FEED]
      else []),
     ⟨true, x, y⟩)
  | Seg.line x y =>
    let dx := x - st.cx
    let dy := y - st.cy
    ((if st.isUp then [GCmd.pen false] else []) ++
     (if bigXY dx dy then [GCmd.lin dx dy (z_comp slope dy) feed] else []),
     ⟨false, x, y⟩)

def drawLoop (slope feed : ℚ) : DrawState → List (Seg ℚ) → List (GCmd ℚ) × DrawState
  | st, [] => ([], st)
  | st, s :: ss =>
    let r := drawStep slope feed st s
    let r2 := drawLoop slope feed r.2 ss
    (r.1 ++ r2.1, r2.2)

/-- The trailer of `draw_segments`: lift the pen if it is down, then emit the
return-to-origin move if the bookkept cursor is beyond the threshold. -/
def drawFinish (slope : ℚ) (st : DrawState) : List (GCmd ℚ) :=
  (if st.isUp then [] else [GCmd.pen true]) ++
  (if bigXY (-st.cx) (-st.cy) then
     [GCmd.lin (-st.cx) (-st.cy) (z_comp slope (-st.cy)) TRAVEL_FEED]
   else [])

/-- Model of `draw_segments(g, segments, z_up, draw_feed)` of huenit_svg.py, as the
list of commands it sends. -/
def draw_segments (slope feed : ℚ) (segs : List (Seg ℚ)) : List (GCmd ℚ) :=
  let r := drawLoop slope feed ⟨true, 0, 0⟩ segs
  r.1 ++ drawFinish slope r.2

/-- Model of `draw_to(g, x, y)` of huenit_draw.py. -/
def draw_to_cmd (slope x y : ℚ) : GCmd ℚ :=
  GCmd.lin x y (z_comp slope y) DRAW_FEED

/-- Model of `draw_square(g, size)` of huenit_draw.py: pen down, four edges, pen up. -/
def draw_square (slope size : ℚ) : List (GCmd ℚ) :=
  [GCmd.pen false, draw_to_cmd slope size 0, draw_to_cmd slope 0 size,
   draw_to_cmd slope (-size) 0, draw_to_cmd slope 0 (-size), GCmd.pen true]

/-- CIRCLE_SEGMENTS = 72, line segments per circle (huenit_draw.py). -/
def CIRCLE_SEGMENTS : Nat := 72

/-- Model of `_z_comp(dy)` over the reals, for the trigonometric shape
drawers (same 0.001 gate as `z_comp`). -/
noncomputable def z_comp_real (slope dy : ℝ) : Option ℝ :=
  if 1/1000 < |slope * dy| then some (slope * dy) else none

/-- Model of `draw_to(g, x, y)` of huenit_draw.py over the reals
(DRAW_FEED = 400). -/
noncomputable def draw_to_cmd_real (slope x y : ℝ) : GCmd ℝ :=
  GCmd.lin x y (z_comp_real slope y) 400

/-- Model of `move_to(g, x, y)` of huenit_draw.py over the reals
(TRAVEL_FEED = 800). -/
noncomputable def move_to_cmd_real (slope x y : ℝ) : GCmd ℝ :=
  GCmd.lin x y (z_comp_real slope y) 800

/-- Model of `draw_triangle(g, size)` of huenit_draw.py: pen down,
base, up to the apex, back to the start, pen up, with the equilateral
height `size * sqrt(3) / 2`. -/
noncomputable def draw_triangle (slope size : ℝ) : List (GCmd ℝ) :=
  let h := size * Real.sqrt 3 / 2
  [GCmd.pen false,
   draw_to_cmd_real slope size 0,
   draw_to_cmd_real slope (-(size/2)) h,
   draw_to_cmd_real slope (-(size/2)) (-h),
   GCmd.pen true]

/-- The point traced at step `i` of `draw_circle`'s loop, X coordinate:
`radius * cos(2*pi*i/CIRCLE_SEGMENTS)`. -/
noncomputable def circlePtX (radius : ℝ) (i : ℕ) : ℝ :=
  radius * Real.cos (2 * Real.pi * i / CIRCLE_SEGMENTS)

/-- The point traced at step `i` of `draw_circle`'s loop, Y coordinate. -/
noncomputable def circlePtY (radius : ℝ) (i : ℕ) : ℝ :=
  radius * Real.sin (2 * Real.pi * i / CIRCLE_SEGMENTS)

/-- The `for i in range(1, n + 1)` draw loop of `draw_circle`: the `i`-th
relative move is the delta between consecutive traced points (the initial
`prev` of the source, `(radius, 0)`, equals the traced point at step 0
since `cos 0 = 1` and `sin 0 = 0`). -/
noncomputable def circleDraws (slope radius : ℝ) : List (GCmd ℝ) :=
  (List.range CIRCLE_SEGMENTS).map fun i =>
    draw_to_cmd_real slope (circlePtX radius (i+1) - circlePtX radius i)
      (circlePtY radius (i+1) - circlePtY radius i)

/-- Model of `draw_circle(g, radius)` of huenit_draw.py: travel to the
circle's right edge, pen down, trace CIRCLE_SEGMENTS chords, pen up,
travel back to the center. -/
noncomputable def draw_circle (slope radius : ℝ) : List (GCmd ℝ) :=
  [move_to_cmd_real slope radius 0, GCmd.pen false] ++
  circleDraws slope radius ++
  [GCmd.pen true, move_to_cmd_real slope (-radius) 0]

def moveDX {α : Type} [Zero α] : GCmd α → α
  | GCmd.lin dx _ _ _ => dx
  | _ => 0

def moveDY {α : Type} [Zero α] : GCmd α → α
  | GCmd.lin _ dy _ _ => dy
  | _ => 0

/-- Net relative X displacement over all emitted moves. -/
def netDispX {α : Type} [AddCommMonoid α] (cs : List (GCmd α)) : α :=
  (cs.map moveDX).sum

/-- Net relative Y displacement over all emitted moves. -/
def netDispY {α : Type} [AddCommMonoid α] (cs : List (GCmd α)) : α :=
  (cs.map moveDY).sum

def penFold {α : Type} (b : Bool) (c : GCmd α) : Bool :=
  match c with
  | GCmd.pen u => u
  | _ => b

/-- The pen state after a command list, given the state before it. -/
def penUpFrom {α : Type} (b : Bool) (cs : List (GCmd α)) : Bool :=
  cs.foldl penFold b

/-- The consecutive deltas of a segment list, starting from point `p`
(the `draw_segments` cursor is set to each segment's point whether or not
the move was emitted, so these deltas do not depend on suppression). -/
def deltasFrom : ℚ × ℚ → List (Seg ℚ) → List (ℚ × ℚ)
  | _, [] => []
  | p, s :: ss => (segX s - p.1, segY s - p.2) :: deltasFrom (segX s, segY s) ss

/-- The byte class `\w = [A-Za-z0-9_]` of the bytes regex `\b` boundary. -/
def isWordByte (b : Nat) : Bool :=
  decide ((48 ≤ b ∧ b ≤ 57) ∨ (65 ≤ b ∧ b ≤ 90) ∨ b = 95 ∨
          (97 ≤ b ∧ b ≤ 122))

def isOByte (b : Nat) : Bool := decide (b = 111 ∨ b = 79)

def isKByte (b : Nat) : Bool := decide (b = 107 ∨ b = 75)

/-- Whether `OK_PAT = rb"\bok\b"` (case-insensitive) matches at index `i`:
the letters `o` `k` at `i`, `i+1`, with a word boundary on both sides. -/
def okWordAt (buf : List Nat) (i : Nat) : Bool :=
  match buf[i]?, buf[i+1]? with
  | some b1, some b2 =>
    isOByte b1 && isKByte b2 &&
    (decide (i = 0) || !isWordByte (buf.getD (i - 1) 32)) &&
    ((buf[i+2]?).all fun b3 => !isWordByte b3)
  | _, _ => false

/-- Model of `OK_PAT.search(buf)` of the GCodeIO receive check. -/
def okSearch (buf : List Nat) : Bool :=
  (List.range buf.length).any (okWordAt buf)

/-- Whether the buffer contains the case-insensitive substring "ok"
anywhere, with no boundary requirement (the claim's reading). -/
def containsOkBytes (buf : List Nat) : Bool :=
  (List.range buf.length).any fun i =>
    match buf[i]?, buf[i+1]? with
    | some b1, some b2 => isOByte b1 && isKByte b2
    | _, _ => false

/-- The outcome of the ack wait of `GCodeIO.send`: acknowledged at some
poll tick, or timed out with a logged warning and a normal return.  The
Python function has no raising path, which this type reflects. -/
inductive AckOutcome where
  | acked (tick : Nat)
  | timedOutWarn
  deriving DecidableEq, Repr

/-- The `while time.time() - t0 < timeout` poll loop of `GCodeIO.send`,
over a trace `bufAt` of receive-buffer contents per poll tick, starting at
tick `t` with `fuel` polls before the timeout.  On a match the shared
buffer is cleared; on timeout it is left as is and the warning outcome is
returned. -/
def sendWait (bufAt : Nat → List Nat) : Nat → Nat → AckOutcome × List Nat
  | t, 0 => (AckOutcome.timedOutWarn, bufAt t)
  | t, fuel + 1 =>
    if okSearch (bufAt t) then (AckOutcome.acked t, [])
    else sendWait bufAt (t + 1) fuel

/-- The keys of the FONT stroke table of huenit_write.py. -/
def fontKeys : List Char :=
  ['A', 'B', 'C', 'D', 'E', 'F', 'G', 'H', 'I', 'J', 'K', 'L', 'M',
   'N', 'O', 'P', 'Q', 'R', 'S', 'T', 'U', 'V', 'W', 'X', 'Y', 'Z',
   ' ', '-', '.', '!', '0', '1', '2', '3']

/-- Model of `get_letter_width(ch)` of huenit_write.py. -/
def get_letter_width (ch : Char) : ℚ :=
  let c := ch.toUpper
  if c = ' ' then 1/2
  else if c = 'I' ∨ c = '!' ∨ c = '.' ∨ c = '1' then 3/5
  else if c = 'M' ∨ c = 'W' then 1
  else 9/10

/-- Model of `calculate_text_width(text, size, spacing)` of huenit_write.py. -/
def calculate_text_width (text : List Char) (size spacing : ℚ) : ℚ :=
  let total := text.foldl
    (fun tot ch => tot + (size * get_letter_width ch.toUpper + spacing)) 0
  if text.isEmpty then total else total - spacing

/-- The failing input for C4: `M 0 0 C 0 10 20 10 30 0 S 40 -10 60 0`. -/
def c4Input : List Tok :=
  [Tok.cmd 'M', Tok.num 0, Tok.num 0,
   Tok.cmd 'C', Tok.num 0, Tok.num 10, Tok.num 20, Tok.num 10,
   Tok.num 30, Tok.num 0,
   Tok.cmd 'S', Tok.num 40, Tok.num (-10), Tok.num 60, Tok.num 0]

/-- The spec's reading of the acknowledgment condition: the buffer contains
the case-insensitive letters `o` `k` as a whole word, i.e. delimited on each
side by a non-word byte or an end of the buffer. -/
def WordOkProp (buf : List Nat) : Prop :=
  ∃ pre b1 b2 post,
    buf = pre ++ b1 :: b2 :: post ∧
    isOByte b1 = true ∧ isKByte b2 = true ∧
    (∀ x ∈ pre.getLast?, isWordByte x = false) ∧
    (∀ x ∈ post.head?, isWordByte x = false)

/-! Theorems and supporting lemmas about the embedded definitions. -/

/-- C10: `parse_path_d` is total (the model above is a total function
mirroring the source's control flow); `next_nums` always returns exactly
the requested arity, padding every missing argument — end of input or a
command letter where a number was expected — with 0.0, as the concrete
run of a bare `L` command (emitting `line 0 0`) illustrates. -/
theorem claim_C10 :
    (∀ (n : Nat) (ts : List Tok), (nextNums n ts).1.length = n) ∧
    (∀ (n : Nat) (c : Char) (rest : List Tok),
      nextNums n (Tok.cmd c :: rest) =
        (List.replicate n (0 : ℚ), Tok.cmd c :: rest)) ∧
    (∀ n : Nat, nextNums n ([] : List Tok) = (List.replicate n (0 : ℚ), [])) ∧
    parse_path_d [Tok.cmd 'L'] = [Seg.line 0 0] := by
  refine ⟨?_, ?_, ?_, by decide⟩
  · intro n
    induction n with
    | zero => intro ts; rfl
    | succ n ih =>
      intro ts
      match ts with
      | [] => simp [nextNums]
      | Tok.num q :: rest => simpa [nextNums] using ih rest
      | Tok.cmd c :: rest => simp [nextNums]
  · intro n c rest
    cases n with
    | zero => rfl
    | succ n => rfl
  · intro n
    cases n with
    | zero => rfl
    | succ n => rfl

/-- C9: the font width calculation is additive over two glyphs:
`width(a ++ b) = width(a) + spacing + width(b)` for known glyphs. -/
theorem claim_C9 :
    ∀ (a b : Char) (size spacing : ℚ), a ∈ fontKeys → b ∈ fontKeys →
      calculate_text_width [a, b] size spacing =
        calculate_text_width [a] size spacing + spacing +
        calculate_text_width [b] size spacing := by
  intro a b size spacing _ _
  simp [calculate_text_width]
  ring

/-- Witness for C9 at the glyphs A and B. -/
theorem claim_C9_witness :
    calculate_text_width ['A', 'B'] 10 2 =
      calculate_text_width ['A'] 10 2 + 2 + calculate_text_width ['B'] 10 2 :=
  claim_C9 'A' 'B' 10 2 (by decide) (by decide)

/-- C7: when no poll of the receive-buffer trace ever matches the ack
pattern, the send wait returns normally with the non-fatal timed-out
outcome (the model, like the source, has no raising path), so the caller
proceeds to the next command. -/
theorem claim_C7 :
    ∀ (bufAt : Nat → List Nat) (t fuel : Nat),
      (∀ u, okSearch (bufAt u) = false) →
      (sendWait bufAt t fuel).1 = AckOutcome.timedOutWarn := by
  intro bufAt t fuel h
  induction fuel generalizing t with
  | zero => rfl
  | succ n ih =>
    simp only [sendWait, h t, if_false, Bool.false_eq_true]
    exact ih (t + 1)

/-- Witness for C7: an empty receive buffer at every tick times out. -/
theorem claim_C7_witness :
    (sendWait (fun _ => []) 0 3).1 = AckOutcome.timedOutWarn :=
  claim_C7 (fun _ => []) 0 3 (fun _ => rfl)

/-- C6 counterexample: at the suppression threshold the emitted Z delta is
not `tilt_slope * dy` and doubling the Y delta does not double it: with
`tilt_slope = 1`, `dy = 0.001` emits no Z (0 ≠ 0.001) while `dy = 0.002`
emits 0.002 ≠ 2 · 0. -/
theorem claim_C6_counterexample :
    emittedZ 1 (1/1000) = 0 ∧
    emittedZ 1 (1/1000) ≠ 1 * (1/1000) ∧
    emittedZ 1 (2/1000) = 2/1000 ∧
    emittedZ 1 (2/1000) ≠ 2 * emittedZ 1 (1/1000) := by
  with_unfolding_all decide

/-- The modelled Python `abs` is the absolute value. -/
theorem pyAbs_eq_abs (q : ℚ) : pyAbs q = |q| := by
  unfold pyAbs
  rcases lt_or_ge q 0 with h | h
  · rw [if_pos h, abs_of_neg h]
  · rw [if_neg (not_lt.mpr h), abs_of_nonneg h]

/-- C6 amended: the emitted Z delta is `tilt_slope * dy` whenever its
magnitude exceeds the 0.001 suppression threshold and zero otherwise; it
is zero whenever the Y delta is zero, and doubling the Y delta doubles it
whenever the undoubled delta is above the threshold. -/
theorem claim_C6_amended :
    ∀ slope dy : ℚ,
      (dy = 0 → emittedZ slope dy = 0) ∧
      (1/1000 < pyAbs (slope * dy) →
        emittedZ slope dy = slope * dy ∧
        emittedZ slope (2 * dy) = 2 * (slope * dy)) := by
  intro slope dy
  constructor
  · intro h
    subst h
    simp only [emittedZ, z_comp, mul_zero]
    norm_num [pyAbs]
  · intro h
    have h2 : 1/1000 < pyAbs (slope * (2 * dy)) := by
      rw [pyAbs_eq_abs, show slope * (2 * dy) = 2 * (slope * dy) by ring,
        abs_mul, abs_two]
      rw [pyAbs_eq_abs] at h
      linarith [abs_nonneg (slope * dy)]
    constructor
    · simp only [emittedZ, z_comp]
      rw [if_pos h]
      rfl
    · simp only [emittedZ, z_comp]
      rw [if_pos h2]
      simp only [Option.getD_some]
      ring

/-- Witness for C6 amended at `tilt_slope = 1`, `dy = 0.01`. -/
theorem claim_C6_witness :
    emittedZ 1 0 = 0 ∧
    emittedZ 1 (1/100) = 1 * (1/100) ∧
    emittedZ 1 (2 * (1/100)) = 2 * (1 * (1/100)) :=
  ⟨(claim_C6_amended 1 0).1 rfl,
   ((claim_C6_amended 1 (1/100)).2 (by with_unfolding_all decide)).1,
   ((claim_C6_amended 1 (1/100)).2 (by with_unfolding_all decide)).2⟩

/-- C3 counterexample: the buffer "token" contains the case-insensitive
substring "ok" but does not satisfy the `\bok\b` pattern, so the ack wait
is not satisfied and times out. -/
theorem claim_C3_counterexample :
    containsOkBytes [116, 111, 107, 101, 110] = true ∧
    okSearch [116, 111, 107, 101, 110] = false ∧
    (sendWait (fun _ => [116, 111, 107, 101, 110]) 0 5).1 =
      AckOutcome.timedOutWarn := by decide

/-- C5 counterexample: path data beginning with an `L` command yields a
non-empty segment list whose first segment is a line, not a move. -/
theorem claim_C5_counterexample :
    parse_path_d [Tok.cmd 'L', Tok.num 10, Tok.num 10] = [Seg.line 10 10] ∧
    headIsMove (parse_path_d [Tok.cmd 'L', Tok.num 10, Tok.num 10]) = false := by
  decide

/-- C1 counterexample: five consecutive sub-threshold moves are all
suppressed while the bookkept cursor still advances to 0.04, so the only
emitted command is the final return move of −0.04 and the net emitted
displacement is (−1/25, 0), not (0, 0) within the 0.01 epsilon. -/
theorem claim_C1_counterexample :
    draw_segments 0 400
        [Seg.move (1/125) 0, Seg.move (2/125) 0, Seg.move (3/125) 0,
         Seg.move (4/125) 0, Seg.move (1/25) 0] =
      [GCmd.lin (-1/25) 0 none TRAVEL_FEED] ∧
    netDispX (draw_segments 0 400
        [Seg.move (1/125) 0, Seg.move (2/125) 0, Seg.move (3/125) 0,
         Seg.move (4/125) 0, Seg.move (1/25) 0]) = -1/25 ∧
    ¬(pyAbs (-1/25 : ℚ) ≤ 1/100) := by with_unfolding_all decide

/-- C4: on a cubic followed by an explicit `S`, the parser anchors the
first control point of the S curve at the current point (30, 0) — reading
the `S` letter resets `last_ctrl` to `None` — so the first flattened point
of the S curve is (30.075, −0.07125); reflecting the C command's final
control point (20, 10) through (30, 0), as the claim states, would give
the control point (40, −10) and the first flattened point
(31.42875, −1.425) instead. -/
theorem claim_C4_code_eval :
    (parse_path_d c4Input)[21]? =
      some (Seg.line (1203/40 : ℚ) (-57/800 : ℚ)) ∧
    (parse_path_d c4Input)[21]? ≠
      some (Seg.line (25143/800 : ℚ) (-57/40 : ℚ)) := by
  with_unfolding_all decide

theorem foldl_max_mono (l : List ℚ) :
    ∀ {a b : ℚ}, a ≤ b → l.foldl max a ≤ l.foldl max b := by
  induction l with
  | nil => intro a b h; exact h
  | cons x l ih => intro a b h; exact ih (max_le_max h le_rfl)

theorem foldl_min_le_foldl_max (l : List ℚ) :
    ∀ a : ℚ, l.foldl min a ≤ l.foldl max a := by
  induction l with
  | nil => intro a; exact le_rfl
  | cons x l ih =>
    intro a
    simp only [List.foldl_cons]
    exact le_trans (ih (min a x))
      (foldl_max_mono l (le_trans (min_le_left a x) (le_max_left a x)))

/-- C2: the geometry normalization equals its specification: empty exactly
when the bounding box has zero extent on both axes, otherwise scale-to-fit
about the bounding-box center with the Y axis flipped, kinds and order
unchanged. -/
theorem claim_C2 :
    ∀ (segments : List (Seg ℚ)) (size_mm : ℚ),
      transform_segments segments size_mm =
        transform_segments_claim segments size_mm := by
  intro segments size_mm
  cases segments with
  | nil => rfl
  | cons s rest =>
    have hw : 0 ≤ xMaxOf s rest - xMinOf s rest :=
      sub_nonneg.mpr (foldl_min_le_foldl_max _ _)
    have hh : 0 ≤ yMaxOf s rest - yMinOf s rest :=
      sub_nonneg.mpr (foldl_min_le_foldl_max _ _)
    have hiff :
        max (xMaxOf s rest - xMinOf s rest) (yMaxOf s rest - yMinOf s rest)
          = 0 ↔
        (xMaxOf s rest - xMinOf s rest = 0 ∧
         yMaxOf s rest - yMinOf s rest = 0) := by
      constructor
      · intro h
        exact ⟨le_antisymm (h ▸ le_max_left _ _) hw,
               le_antisymm (h ▸ le_max_right _ _) hh⟩
      · intro h
        rw [h.1, h.2]
        exact max_self 0
    simp only [transform_segments, transform_segments_claim]
    exact if_congr hiff rfl rfl

theorem parseFrom_skip_nums :
    ∀ (ts : List Tok) (st : PState), st.cmd = none →
      parseFrom ts st = parseFrom (ts.dropWhile Tok.isNum) st := by
  intro ts
  induction ts with
  | nil => intro st h; rfl
  | cons t rest ih =>
    intro st h
    cases t with
    | cmd c => rfl
    | num q =>
      have h1 : parseFrom (Tok.num q :: rest) st = parseFrom rest st := by
        show parseLoopF (rest.length + 1 + 1) (Tok.num q :: rest) st =
          parseFrom rest st
        simp only [parseLoopF, h]
        rfl
      rw [h1, ih st h]
      congr 1

/-- C8: a Z or z command closes the subpath with a line back to its start
exactly when the current point is farther than the 0.01 tolerance from it
on either axis, resets the current position to the subpath start, and
clears the current command, so that bare numeric tokens following the
Z or z are skipped rather than reinterpreted as further commands. -/
theorem claim_C8 :
    (∀ (st : PState) (ts : List Tok),
      parseFrom (Tok.cmd 'Z' :: ts) st =
        (if 1/100 < pyAbs (st.cx - st.sx) ∨ 1/100 < pyAbs (st.cy - st.sy)
          then [Seg.line st.sx st.sy] else []) ++
        parseFrom (ts.dropWhile Tok.isNum)
          { st with cx := st.sx, cy := st.sy, cmd := none,
                    lastCtrl := none }) ∧
    (∀ (st : PState) (ts : List Tok),
      parseFrom (Tok.cmd 'z' :: ts) st =
        (if 1/100 < pyAbs (st.cx - st.sx) ∨ 1/100 < pyAbs (st.cy - st.sy)
          then [Seg.line st.sx st.sy] else []) ++
        parseFrom (ts.dropWhile Tok.isNum)
          { st with cx := st.sx, cy := st.sy, cmd := none,
                    lastCtrl := none }) := by
  constructor
  · intro st ts
    have h0 : parseFrom (Tok.cmd 'Z' :: ts) st =
        zSegs { st with cmd := some 'Z', lastCtrl := none } ++
        parseFrom ts
          { st with cx := st.sx, cy := st.sy, cmd := none,
                    lastCtrl := none } := rfl
    rw [h0, parseFrom_skip_nums ts _ rfl]
    rfl
  · intro st ts
    have h0 : parseFrom (Tok.cmd 'z' :: ts) st =
        zSegs { st with cmd := some 'z', lastCtrl := none } ++
        parseFrom ts
          { st with cx := st.sx, cy := st.sy, cmd := none,
                    lastCtrl := none } := rfl
    rw [h0, parseFrom_skip_nums ts _ rfl]
    rfl

theorem dispatch_M_move :
    ∀ (c : Char) (st : PState) (ts : List Tok), c = 'M' ∨ c = 'm' →
      ∃ x y, (dispatch c st ts).1 = [Seg.move x y] := by
  intro c st ts h
  rcases h with h | h <;> subst h
  · exact ⟨_, _, rfl⟩
  · exact ⟨_, _, rfl⟩

theorem dispatch_M_headIsMove (c : Char) (st : PState) (ts : List Tok)
    (l : List (Seg ℚ)) (h : c = 'M' ∨ c = 'm') :
    headIsMove ((dispatch c st ts).1 ++ l) = true := by
  obtain ⟨x, y, hxy⟩ := dispatch_M_move c st ts h
  rw [hxy]
  rfl

/-- C5 amended: a non-empty segment list from `parse_path_d` begins with a
move whenever the path data's first command letter is M or m (as the SVG
grammar requires of well-formed path data); the rect, line, polyline,
polygon, circle and ellipse converters always begin with a move. -/
theorem claim_C5_amended :
    (∀ ts : List Tok,
      firstCmdLetter ts = some 'M' ∨ firstCmdLetter ts = some 'm' →
      headIsMove (parse_path_d ts) = true) ∧
    (∀ x y w h : ℚ, headIsMove (rect_to_segments x y w h) = true) ∧
    (∀ x1 y1 x2 y2 : ℚ, headIsMove (line_to_segments x1 y1 x2 y2) = true) ∧
    (∀ (nums : List ℚ) (close : Bool),
      polyline_to_segments nums close = [] ∨
      headIsMove (polyline_to_segments nums close) = true) ∧
    (∀ cx cy r : ℝ, headIsMove (circle_to_segments cx cy r) = true) ∧
    (∀ cx cy rx ry : ℝ, headIsMove (ellipse_to_segments cx cy rx ry) = true) := by
  refine ⟨?_, fun x y w h => rfl, fun x1 y1 x2 y2 => rfl, ?_, ?_, ?_⟩
  · have main : ∀ ts : List Tok,
        firstCmdLetter ts = some 'M' ∨ firstCmdLetter ts = some 'm' →
        headIsMove (parseFrom ts initState) = true := by
      intro ts
      induction ts with
      | nil =>
        intro h
        rcases h with h | h <;> simp [firstCmdLetter] at h
      | cons t rest ih =>
        cases t with
        | num q =>
          intro h
          exact ih h
        | cmd c =>
          intro h
          have hc : c = 'M' ∨ c = 'm' := by
            rcases h with h | h
            · exact Or.inl (Option.some.inj h)
            · exact Or.inr (Option.some.inj h)
          have hpc : isPathCmd c = true := by
            rcases hc with h' | h' <;> subst h' <;> rfl
          show headIsMove
            (parseLoopF (rest.length + 1 + 1) (Tok.cmd c :: rest) initState)
            = true
          simp only [parseLoopF, hpc, if_true]
          exact dispatch_M_headIsMove c _ rest _ hc
    exact main
  · intro nums close
    cases hp : toPairs nums with
    | nil =>
      left
      unfold polyline_to_segments
      rw [hp]
    | cons p rest =>
      right
      unfold polyline_to_segments
      rw [hp]
      rfl
  · intro cx cy r
    unfold circle_to_segments
    rw [List.range_succ_eq_map, List.map_cons]
    rfl
  · intro cx cy rx ry
    unfold ellipse_to_segments
    rw [List.range_succ_eq_map, List.map_cons]
    rfl

/-- Witness for C5 amended at the path data `M 3 4`. -/
theorem claim_C5_witness :
    headIsMove (parse_path_d [Tok.cmd 'M', Tok.num 3, Tok.num 4]) = true :=
  claim_C5_amended.1 [Tok.cmd 'M', Tok.num 3, Tok.num 4] (Or.inl rfl)

theorem netDispX_append {α : Type} [AddCommMonoid α] (a b : List (GCmd α)) :
    netDispX (a ++ b) = netDispX a + netDispX b := by
  simp [netDispX]

theorem netDispY_append {α : Type} [AddCommMonoid α] (a b : List (GCmd α)) :
    netDispY (a ++ b) = netDispY a + netDispY b := by
  simp [netDispY]

theorem penUpFrom_append {α : Type} (b : Bool) (l1 l2 : List (GCmd α)) :
    penUpFrom b (l1 ++ l2) = penUpFrom (penUpFrom b l1) l2 := by
  simp [penUpFrom]

theorem netDispX_drawStep (slope feed : ℚ) (st : DrawState) (s : Seg ℚ) :
    netDispX (drawStep slope feed st s).1 =
      if bigXY (segX s - st.cx) (segY s - st.cy) = true
        then segX s - st.cx else 0 := by
  cases s with
  | move x y =>
    simp only [drawStep, segX, segY]
    split_ifs <;> simp_all [netDispX, moveDX]
  | line x y =>
    simp only [drawStep, segX, segY]
    split_ifs <;> simp_all [netDispX, moveDX]

theorem netDispY_drawStep (slope feed : ℚ) (st : DrawState) (s : Seg ℚ) :
    netDispY (drawStep slope feed st s).1 =
      if bigXY (segX s - st.cx) (segY s - st.cy) = true
        then segY s - st.cy else 0 := by
  cases s with
  | move x y =>
    simp only [drawStep, segX, segY]
    split_ifs <;> simp_all [netDispY, moveDY]
  | line x y =>
    simp only [drawStep, segX, segY]
    split_ifs <;> simp_all [netDispY, moveDY]

theorem drawStep_snd (slope feed : ℚ) (st : DrawState) (s : Seg ℚ) :
    (drawStep slope feed st s).2.cx = segX s ∧
    (drawStep slope feed st s).2.cy = segY s := by
  cases s <;> simp [drawStep, segX, segY]

theorem penUpFrom_drawStep (slope feed : ℚ) (st : DrawState) (s : Seg ℚ) :
    penUpFrom st.isUp (drawStep slope feed st s).1 =
      (drawStep slope feed st s).2.isUp := by
  cases s with
  | move x y =>
    simp only [drawStep]
    split_ifs <;> simp_all [penUpFrom, penFold]
  | line x y =>
    simp only [drawStep]
    split_ifs <;> simp_all [penUpFrom, penFold]

theorem drawLoop_invariant :
    ∀ (segs : List (Seg ℚ)) (slope feed : ℚ) (st : DrawState),
      (∀ d ∈ deltasFrom (st.cx, st.cy) segs,
        d = ((0 : ℚ), (0 : ℚ)) ∨ bigXY d.1 d.2 = true) →
      netDispX (drawLoop slope feed st segs).1 =
        (drawLoop slope feed st segs).2.cx - st.cx ∧
      netDispY (drawLoop slope feed st segs).1 =
        (drawLoop slope feed st segs).2.cy - st.cy ∧
      penUpFrom st.isUp (drawLoop slope feed st segs).1 =
        (drawLoop slope feed st segs).2.isUp := by
  intro segs
  induction segs with
  | nil =>
    intro slope feed st h
    refine ⟨?_, ?_, rfl⟩ <;> simp [drawLoop, netDispX, netDispY]
  | cons s ss ih =>
    intro slope feed st h
    have hd := h (segX s - st.cx, segY s - st.cy)
      (List.mem_cons_self _ _)
    have htail : ∀ d ∈ deltasFrom (segX s, segY s) ss,
        d = ((0 : ℚ), (0 : ℚ)) ∨ bigXY d.1 d.2 = true :=
      fun d hd2 => h d (List.mem_cons_of_mem _ hd2)
    have hcx : (drawStep slope feed st s).2.cx = segX s :=
      (drawStep_snd slope feed st s).1
    have hcy : (drawStep slope feed st s).2.cy = segY s :=
      (drawStep_snd slope feed st s).2
    obtain ⟨ihx, ihy, ihp⟩ :=
      ih slope feed (drawStep slope feed st s).2 (by rw [hcx, hcy]; exact htail)
    refine ⟨?_, ?_, ?_⟩
    · show netDispX ((drawStep slope feed st s).1 ++
        (drawLoop slope feed (drawStep slope feed st s).2 ss).1) =
        (drawLoop slope feed (drawStep slope feed st s).2 ss).2.cx - st.cx
      rw [netDispX_append, ihx, netDispX_drawStep, hcx]
      split_ifs with hbig
      · ring
      · rcases hd with hd | hd
        · rw [Prod.mk.injEq] at hd
          rw [sub_eq_zero.mp hd.1]
          ring
        · exact absurd hd hbig
    · show netDispY ((drawStep slope feed st s).1 ++
        (drawLoop slope feed (drawStep slope feed st s).2 ss).1) =
        (drawLoop slope feed (drawStep slope feed st s).2 ss).2.cy - st.cy
      rw [netDispY_append, ihy, netDispY_drawStep, hcy]
      split_ifs with hbig
      · ring
      · rcases hd with hd | hd
        · rw [Prod.mk.injEq] at hd
          rw [sub_eq_zero.mp hd.2]
          ring
        · exact absurd hd hbig
    · show penUpFrom st.isUp ((drawStep slope feed st s).1 ++
        (drawLoop slope feed (drawStep slope feed st s).2 ss).1) =
        (drawLoop slope feed (drawStep slope feed st s).2 ss).2.isUp
      rw [penUpFrom_append, penUpFrom_drawStep]
      exact ihp

theorem penUpFrom_drawFinish (slope : ℚ) (st : DrawState) :
    penUpFrom st.isUp (drawFinish slope st) = true := by
  unfold drawFinish
  split_ifs <;> simp_all [penUpFrom, penFold]

theorem netDispX_drawFinish (slope : ℚ) (st : DrawState) :
    netDispX (drawFinish slope st) =
      if bigXY (-st.cx) (-st.cy) = true then -st.cx else 0 := by
  unfold drawFinish
  split_ifs <;> simp_all [netDispX, moveDX]

theorem netDispY_drawFinish (slope : ℚ) (st : DrawState) :
    netDispY (drawFinish slope st) =
      if bigXY (-st.cx) (-st.cy) = true then -st.cy else 0 := by
  unfold drawFinish
  split_ifs <;> simp_all [netDispY, moveDY]

theorem drawLoop_pen :
    ∀ (segs : List (Seg ℚ)) (slope feed : ℚ) (st : DrawState),
      penUpFrom st.isUp (drawLoop slope feed st segs).1 =
        (drawLoop slope feed st segs).2.isUp := by
  intro segs
  induction segs with
  | nil => intro slope feed st; rfl
  | cons s ss ih =>
    intro slope feed st
    show penUpFrom st.isUp ((drawStep slope feed st s).1 ++
      (drawLoop slope feed (drawStep slope feed st s).2 ss).1) =
      (drawLoop slope feed (drawStep slope feed st s).2 ss).2.isUp
    rw [penUpFrom_append, penUpFrom_drawStep]
    exact ih slope feed _

theorem sum_map_range_sub {M : Type} [AddCommGroup M] (f : ℕ → M) :
    ∀ n : ℕ, (((List.range n).map fun i => f (i+1) - f i).sum) = f n - f 0 := by
  intro n
  induction n with
  | zero => simp
  | succ n ih =>
    rw [List.range_succ, List.map_append, List.sum_append, ih]
    simp

theorem penUpFrom_map_lin {α : Type} (dx dy : ℕ → α) (dz : ℕ → Option α)
    (fd : ℕ → α) (b : Bool) :
    ∀ n : ℕ, penUpFrom b
      ((List.range n).map fun i => GCmd.lin (dx i) (dy i) (dz i) (fd i)) = b := by
  intro n
  induction n with
  | zero => rfl
  | succ n ih =>
    rw [List.range_succ, List.map_append, penUpFrom_append, ih]
    rfl

theorem netDispX_circleDraws (slope radius : ℝ) :
    netDispX (circleDraws slope radius) =
      circlePtX radius CIRCLE_SEGMENTS - circlePtX radius 0 := by
  unfold circleDraws netDispX
  rw [List.map_map]
  rw [show (moveDX ∘ fun i =>
      draw_to_cmd_real slope (circlePtX radius (i+1) - circlePtX radius i)
        (circlePtY radius (i+1) - circlePtY radius i)) =
      fun i => circlePtX radius (i+1) - circlePtX radius i from rfl]
  exact sum_map_range_sub (circlePtX radius) CIRCLE_SEGMENTS

theorem netDispY_circleDraws (slope radius : ℝ) :
    netDispY (circleDraws slope radius) =
      circlePtY radius CIRCLE_SEGMENTS - circlePtY radius 0 := by
  unfold circleDraws netDispY
  rw [List.map_map]
  rw [show (moveDY ∘ fun i =>
      draw_to_cmd_real slope (circlePtX radius (i+1) - circlePtX radius i)
        (circlePtY radius (i+1) - circlePtY radius i)) =
      fun i => circlePtY radius (i+1) - circlePtY radius i from rfl]
  exact sum_map_range_sub (circlePtY radius) CIRCLE_SEGMENTS

theorem penUpFrom_circleDraws (b : Bool) (slope radius : ℝ) :
    penUpFrom b (circleDraws slope radius) = b := by
  unfold circleDraws
  exact penUpFrom_map_lin
    (fun i => circlePtX radius (i+1) - circlePtX radius i)
    (fun i => circlePtY radius (i+1) - circlePtY radius i)
    (fun i => z_comp_real slope (circlePtY radius (i+1) - circlePtY radius i))
    (fun _ => 400) b CIRCLE_SEGMENTS

theorem circlePtX_zero (radius : ℝ) : circlePtX radius 0 = radius := by
  unfold circlePtX
  norm_num

theorem circlePtY_zero (radius : ℝ) : circlePtY radius 0 = 0 := by
  unfold circlePtY
  norm_num

theorem circlePtX_full (radius : ℝ) :
    circlePtX radius CIRCLE_SEGMENTS = radius := by
  unfold circlePtX CIRCLE_SEGMENTS
  rw [show ((72 : ℕ) : ℝ) = 72 from by norm_num]
  rw [show 2 * Real.pi * 72 / 72 = 2 * Real.pi from by ring]
  rw [Real.cos_two_pi, mul_one]

theorem circlePtY_full (radius : ℝ) :
    circlePtY radius CIRCLE_SEGMENTS = 0 := by
  unfold circlePtY CIRCLE_SEGMENTS
  rw [show ((72 : ℕ) : ℝ) = 72 from by norm_num]
  rw [show 2 * Real.pi * 72 / 72 = 2 * Real.pi from by ring]
  rw [Real.sin_two_pi, mul_zero]

/-- C1 amended: the executor `draw_segments` finishes with the pen up for
every segment list (a pen-up transition is emitted after the last segment
whenever the pen is down), while the final relative move toward the
origin is emitted only when the bookkept cursor exceeds the 0.01 mm
threshold; provided no inter-point delta of the segment list falls into
the 0.01 mm suppression band (each delta is either exactly zero or beyond
the threshold), the net relative displacement over all emitted moves is
(0, 0) to within 0.01 mm per axis (exactly 0 when the final return move
is emitted); and the shape drawers `draw_square`, `draw_triangle` and
`draw_circle` all emit command sequences with net relative displacement
exactly (0, 0) that end with the pen up. -/
theorem claim_C1_amended :
    (∀ (slope feed : ℚ) (segs : List (Seg ℚ)),
      penUpFrom true (draw_segments slope feed segs) = true) ∧
    (∀ (slope feed : ℚ) (segs : List (Seg ℚ)),
      (∀ d ∈ deltasFrom (0, 0) segs,
        d = ((0 : ℚ), (0 : ℚ)) ∨ bigXY d.1 d.2 = true) →
      pyAbs (netDispX (draw_segments slope feed segs)) ≤ 1/100 ∧
      pyAbs (netDispY (draw_segments slope feed segs)) ≤ 1/100) ∧
    (∀ slope size : ℚ, netDispX (draw_square slope size) = 0 ∧
      netDispY (draw_square slope size) = 0 ∧
      penUpFrom true (draw_square slope size) = true) ∧
    (∀ slope size : ℝ, netDispX (draw_triangle slope size) = 0 ∧
      netDispY (draw_triangle slope size) = 0 ∧
      penUpFrom true (draw_triangle slope size) = true) ∧
    (∀ slope radius : ℝ, netDispX (draw_circle slope radius) = 0 ∧
      netDispY (draw_circle slope radius) = 0 ∧
      penUpFrom true (draw_circle slope radius) = true) := by
  refine ⟨?_, ?_, ?_, ?_, ?_⟩
  · intro slope feed segs
    show penUpFrom true ((drawLoop slope feed ⟨true, 0, 0⟩ segs).1 ++
      drawFinish slope (drawLoop slope feed ⟨true, 0, 0⟩ segs).2) = true
    rw [penUpFrom_append]
    have hp : penUpFrom true (drawLoop slope feed ⟨true, 0, 0⟩ segs).1 =
        (drawLoop slope feed ⟨true, 0, 0⟩ segs).2.isUp :=
      drawLoop_pen segs slope feed ⟨true, 0, 0⟩
    rw [hp]
    exact penUpFrom_drawFinish slope _
  · intro slope feed segs h
    obtain ⟨ihx, ihy, ihp⟩ :=
      drawLoop_invariant segs slope feed ⟨true, 0, 0⟩ h
    have ihx' : netDispX (drawLoop slope feed ⟨true, 0, 0⟩ segs).1 =
        (drawLoop slope feed ⟨true, 0, 0⟩ segs).2.cx - 0 := ihx
    have ihy' : netDispY (drawLoop slope feed ⟨true, 0, 0⟩ segs).1 =
        (drawLoop slope feed ⟨true, 0, 0⟩ segs).2.cy - 0 := ihy
    constructor
    · show pyAbs (netDispX ((drawLoop slope feed ⟨true, 0, 0⟩ segs).1 ++
        drawFinish slope (drawLoop slope feed ⟨true, 0, 0⟩ segs).2)) ≤ 1/100
      rw [netDispX_append, ihx', netDispX_drawFinish]
      split_ifs with hbig
      · rw [show (drawLoop slope feed ⟨true, 0, 0⟩ segs).2.cx - 0 +
          -(drawLoop slope feed ⟨true, 0, 0⟩ segs).2.cx = 0 by ring]
        norm_num [pyAbs]
      · have h1 : ¬(1/100 <
            pyAbs (-(drawLoop slope feed ⟨true, 0, 0⟩ segs).2.cx)) := by
          intro hc
          refine hbig ?_
          unfold bigXY
          rw [Bool.or_eq_true, decide_eq_true_eq, decide_eq_true_eq]
          exact Or.inl (by linarith)
        rw [pyAbs_eq_abs, abs_neg, not_lt] at h1
        rw [pyAbs_eq_abs,
          show (drawLoop slope feed ⟨true, 0, 0⟩ segs).2.cx - 0 + 0 =
            (drawLoop slope feed ⟨true, 0, 0⟩ segs).2.cx by ring]
        exact h1
    · show pyAbs (netDispY ((drawLoop slope feed ⟨true, 0, 0⟩ segs).1 ++
        drawFinish slope (drawLoop slope feed ⟨true, 0, 0⟩ segs).2)) ≤ 1/100
      rw [netDispY_append, ihy', netDispY_drawFinish]
      split_ifs with hbig
      · rw [show (drawLoop slope feed ⟨true, 0, 0⟩ segs).2.cy - 0 +
          -(drawLoop slope feed ⟨true, 0, 0⟩ segs).2.cy = 0 by ring]
        norm_num [pyAbs]
      · have h1 : ¬(1/100 <
            pyAbs (-(drawLoop slope feed ⟨true, 0, 0⟩ segs).2.cy)) := by
          intro hc
          refine hbig ?_
          unfold bigXY
          rw [Bool.or_eq_true, decide_eq_true_eq, decide_eq_true_eq]
          exact Or.inr (by linarith)
        rw [pyAbs_eq_abs, abs_neg, not_lt] at h1
        rw [pyAbs_eq_abs,
          show (drawLoop slope feed ⟨true, 0, 0⟩ segs).2.cy - 0 + 0 =
            (drawLoop slope feed ⟨true, 0, 0⟩ segs).2.cy by ring]
        exact h1
  · intro slope size
    refine ⟨?_, ?_, rfl⟩
    · show netDispX (draw_square slope size) = 0
      simp [draw_square, draw_to_cmd, netDispX, moveDX]
    · show netDispY (draw_square slope size) = 0
      simp [draw_square, draw_to_cmd, netDispY, moveDY]
  · intro slope size
    refine ⟨?_, ?_, rfl⟩
    · show netDispX (draw_triangle slope size) = 0
      simp [draw_triangle, draw_to_cmd_real, netDispX, moveDX]
      ring
    · show netDispY (draw_triangle slope size) = 0
      simp [draw_triangle, draw_to_cmd_real, netDispY, moveDY]
  · intro slope radius
    refine ⟨?_, ?_, ?_⟩
    · show netDispX (draw_circle slope radius) = 0
      unfold draw_circle
      rw [netDispX_append, netDispX_append, netDispX_circleDraws,
        circlePtX_full, circlePtX_zero]
      simp [netDispX, moveDX, move_to_cmd_real]
    · show netDispY (draw_circle slope radius) = 0
      unfold draw_circle
      rw [netDispY_append, netDispY_append, netDispY_circleDraws,
        circlePtY_full, circlePtY_zero]
      simp [netDispY, moveDY, move_to_cmd_real]
    · show penUpFrom true (draw_circle slope radius) = true
      unfold draw_circle
      rw [penUpFrom_append, penUpFrom_append, penUpFrom_circleDraws]
      rfl

/-- Witness for C1 amended: a travel move to (5, 5) then a drawn edge to
(6, 5), both above the suppression threshold. -/
theorem claim_C1_witness :
    penUpFrom true (draw_segments 0 400 [Seg.move 5 5, Seg.line 6 5]) = true ∧
    pyAbs (netDispX (draw_segments 0 400 [Seg.move 5 5, Seg.line 6 5])) ≤ 1/100 ∧
    pyAbs (netDispY (draw_segments 0 400 [Seg.move 5 5, Seg.line 6 5])) ≤ 1/100 := by
  refine ⟨claim_C1_amended.1 0 400 [Seg.move 5 5, Seg.line 6 5], ?_, ?_⟩
  · exact (claim_C1_amended.2.1 0 400 [Seg.move 5 5, Seg.line 6 5]
      (by with_unfolding_all decide)).1
  · exact (claim_C1_amended.2.1 0 400 [Seg.move 5 5, Seg.line 6 5]
      (by with_unfolding_all decide)).2

theorem okSearch_imp_wordOk : ∀ buf : List Nat,
    okSearch buf = true → WordOkProp buf := by
  intro buf h
  rw [okSearch, List.any_eq_true] at h
  obtain ⟨i, hmem, hat⟩ := h
  rw [List.mem_range] at hmem
  unfold okWordAt at hat
  cases h1 : buf[i]? with
  | none => rw [h1] at hat; exact absurd hat (by simp)
  | some b1 =>
  cases h2 : buf[i+1]? with
  | none => rw [h1, h2] at hat; exact absurd hat (by simp)
  | some b2 =>
  rw [h1, h2] at hat
  simp only [Bool.and_eq_true, Bool.or_eq_true, decide_eq_true_eq,
    Bool.not_eq_true'] at hat
  obtain ⟨⟨⟨ho, hk⟩, hb⟩, ha⟩ := hat
  have hi : i < buf.length := hmem
  have hi1 : i + 1 < buf.length := (List.getElem?_eq_some.mp h2).1
  have hbi : buf[i] = b1 := by
    have e := List.getElem?_eq_getElem hi
    rw [h1] at e
    exact (Option.some.inj e).symm
  have hbi1 : buf[i+1] = b2 := by
    have e := List.getElem?_eq_getElem hi1
    rw [h2] at e
    exact (Option.some.inj e).symm
  refine ⟨buf.take i, b1, b2, buf.drop (i+2), ?_, ho, hk, ?_, ?_⟩
  · conv_lhs => rw [← List.take_append_drop i buf]
    congr 1
    rw [List.drop_eq_getElem_cons hi, hbi]
    congr 1
    rw [List.drop_eq_getElem_cons hi1, hbi1]
  · intro x hx
    cases hieq : i with
    | zero =>
      subst hieq
      simp at hx
    | succ j =>
      subst hieq
      rcases hb with hb | hb
      · exact absurd hb (by omega)
      · have hj : j < buf.length := by omega
        have e3 : (buf.take (j+1)).getLast? = some (buf[j]) := by
          rw [List.getLast?_eq_getElem?, List.length_take,
            Nat.min_eq_left (by omega : j + 1 ≤ buf.length)]
          rw [show j + 1 - 1 = j from rfl]
          rw [List.getElem?_take_of_lt (by omega)]
          exact List.getElem?_eq_getElem hj
        rw [e3] at hx
        have hxx : buf[j] = x := Option.some.inj (Option.mem_def.mp hx)
        rw [List.getD_eq_getElem?_getD] at hb
        simp only [Nat.add_sub_cancel] at hb
        rw [List.getElem?_eq_getElem hj] at hb
        simp only [Option.getD_some] at hb
        rw [← hxx]
        exact hb
  · intro x hx
    rw [List.head?_drop] at hx
    cases h3 : buf[i+2]? with
    | none => rw [h3] at hx; exact absurd hx (by simp)
    | some b3 =>
      rw [h3] at hx
      have hxx : b3 = x := Option.some.inj (Option.mem_def.mp hx)
      rw [h3] at ha
      simp only [Option.all_some, Bool.not_eq_true'] at ha
      rw [← hxx]
      exact ha

theorem wordOk_imp_okSearch : ∀ buf : List Nat,
    WordOkProp buf → okSearch buf = true := by
  intro buf hw
  obtain ⟨pre, b1, b2, post, hbuf, ho, hk, hpre, hpost⟩ := hw
  rw [okSearch, List.any_eq_true]
  refine ⟨pre.length, ?_, ?_⟩
  · rw [List.mem_range, hbuf, List.length_append]
    simp only [List.length_cons]
    omega
  · have h1 : buf[pre.length]? = some b1 := by
      rw [hbuf, List.getElem?_append_right (le_refl pre.length)]
      simp
    have h2 : buf[pre.length + 1]? = some b2 := by
      rw [hbuf, List.getElem?_append_right (by omega)]
      rw [show pre.length + 1 - pre.length = 1 from by omega]
      simp
    unfold okWordAt
    rw [h1, h2]
    simp only [Bool.and_eq_true, Bool.or_eq_true, decide_eq_true_eq,
      Bool.not_eq_true']
    refine ⟨⟨⟨ho, hk⟩, ?_⟩, ?_⟩
    · by_cases hpl : pre.length = 0
      · exact Or.inl hpl
      · right
        obtain ⟨x, hx⟩ : ∃ x, pre.getLast? = some x := by
          rw [List.getLast?_eq_getElem?]
          exact ⟨_, List.getElem?_eq_getElem (by omega)⟩
        have hr : buf.getD (pre.length - 1) 32 = x := by
          rw [List.getD_eq_getElem?_getD, hbuf,
            List.getElem?_append_left (by omega),
            ← List.getLast?_eq_getElem?, hx]
          rfl
        rw [hr]
        exact hpre x (Option.mem_def.mpr hx)
    · have h3 : buf[pre.length + 2]? = post.head? := by
        rw [hbuf, List.getElem?_append_right (by omega)]
        rw [show pre.length + 2 - pre.length = 2 from by omega]
        cases post <;> simp
      rw [h3]
      cases hp : post.head? with
      | none => rfl
      | some y =>
        have hy := hpost y (Option.mem_def.mpr hp)
        simp [Option.all_some, hy]

/-- C3 amended: the ack wait is satisfied exactly when the receive buffer
contains the case-insensitive letters "ok" as a whole word — delimited on
each side by a non-word byte or an end of the buffer, per the word
boundaries of `OK_PAT = rb"\bok\b"` — and on a match the shared buffer is
cleared and the wait returns acknowledged. -/
theorem claim_C3_amended :
    (∀ buf : List Nat, okSearch buf = true ↔ WordOkProp buf) ∧
    (∀ (bufAt : Nat → List Nat) (t fuel : Nat),
      okSearch (bufAt t) = true →
      sendWait bufAt t (fuel + 1) = (AckOutcome.acked t, [])) := by
  constructor
  · intro buf
    exact ⟨okSearch_imp_wordOk buf, wordOk_imp_okSearch buf⟩
  · intro bufAt t fuel h
    show (if okSearch (bufAt t) = true then (AckOutcome.acked t, [])
      else sendWait bufAt (t + 1) fuel) = (AckOutcome.acked t, [])
    rw [if_pos h]

/-- Witness for C3 amended: the two-byte buffer "ok" matches and the
buffer is cleared. -/
theorem claim_C3_witness :
    okSearch [111, 107] = true ∧
    sendWait (fun _ => [111, 107]) 0 1 = (AckOutcome.acked 0, []) := by
  have h : okSearch [111, 107] = true :=
    (claim_C3_amended.1 [111, 107]).mpr
      ⟨[], 111, 107, [], rfl, rfl, rfl, by simp, by simp⟩
  exact ⟨h, claim_C3_amended.2 (fun _ => [111, 107]) 0 0 h⟩

theorem nextNums_length_le : ∀ (n : Nat) (ts : List Tok),
    (nextNums n ts).2.length ≤ ts.length := by
  intro n
  induction n with
  | zero => intro ts; exact le_rfl
  | succ n ih =>
    intro ts
    match ts with
    | [] => simp [nextNums]
    | Tok.num q :: rest =>
      simp only [nextNums]
      exact le_trans (ih rest) (Nat.le_succ _)
    | Tok.cmd c :: rest => simp [nextNums]

theorem dispatch_length_le : ∀ (c : Char) (st : PState) (ts : List Tok),
    (dispatch c st ts).2.2.length ≤ ts.length := by
  intro c st ts
  unfold dispatch
  by_cases h1 : (c == 'M' || c == 'm') = true
  · rw [if_pos h1]; exact nextNums_length_le 2 ts
  rw [if_neg h1]
  by_cases h2 : (c == 'L' || c == 'l') = true
  · rw [if_pos h2]; exact nextNums_length_le 2 ts
  rw [if_neg h2]
  by_cases h3 : (c == 'H' || c == 'h') = true
  · rw [if_pos h3]; exact nextNums_length_le 1 ts
  rw [if_neg h3]
  by_cases h4 : (c == 'V' || c == 'v') = true
  · rw [if_pos h4]; exact nextNums_length_le 1 ts
  rw [if_neg h4]
  by_cases h5 : (c == 'C' || c == 'c') = true
  · rw [if_pos h5]; exact nextNums_length_le 6 ts
  rw [if_neg h5]
  by_cases h6 : (c == 'S' || c == 's') = true
  · rw [if_pos h6]; exact nextNums_length_le 4 ts
  rw [if_neg h6]
  by_cases h7 : (c == 'Q' || c == 'q') = true
  · rw [if_pos h7]; exact nextNums_length_le 4 ts
  rw [if_neg h7]
  by_cases h8 : (c == 'T' || c == 't') = true
  · rw [if_pos h8]; exact nextNums_length_le 2 ts
  rw [if_neg h8]
  by_cases h9 : (c == 'A' || c == 'a') = true
  · rw [if_pos h9]; exact nextNums_length_le 7 ts
  rw [if_neg h9]
  by_cases h10 : (c == 'Z' || c == 'z') = true
  · rw [if_pos h10]
  rw [if_neg h10]

theorem dispatch_length_lt : ∀ (c : Char) (st : PState) (q : ℚ)
    (rest : List Tok), isPathCmd c = true → (c == 'Z' || c == 'z') = false →
    (dispatch c st (Tok.num q :: rest)).2.2.length <
      (Tok.num q :: rest).length := by
  intro c st q rest hc hz
  unfold dispatch
  by_cases h1 : (c == 'M' || c == 'm') = true
  · rw [if_pos h1]; exact Nat.lt_succ_of_le (nextNums_length_le 1 rest)
  rw [if_neg h1]
  by_cases h2 : (c == 'L' || c == 'l') = true
  · rw [if_pos h2]; exact Nat.lt_succ_of_le (nextNums_length_le 1 rest)
  rw [if_neg h2]
  by_cases h3 : (c == 'H' || c == 'h') = true
  · rw [if_pos h3]; exact Nat.lt_succ_of_le (nextNums_length_le 0 rest)
  rw [if_neg h3]
  by_cases h4 : (c == 'V' || c == 'v') = true
  · rw [if_pos h4]; exact Nat.lt_succ_of_le (nextNums_length_le 0 rest)
  rw [if_neg h4]
  by_cases h5 : (c == 'C' || c == 'c') = true
  · rw [if_pos h5]; exact Nat.lt_succ_of_le (nextNums_length_le 5 rest)
  rw [if_neg h5]
  by_cases h6 : (c == 'S' || c == 's') = true
  · rw [if_pos h6]; exact Nat.lt_succ_of_le (nextNums_length_le 3 rest)
  rw [if_neg h6]
  by_cases h7 : (c == 'Q' || c == 'q') = true
  · rw [if_pos h7]; exact Nat.lt_succ_of_le (nextNums_length_le 3 rest)
  rw [if_neg h7]
  by_cases h8 : (c == 'T' || c == 't') = true
  · rw [if_pos h8]; exact Nat.lt_succ_of_le (nextNums_length_le 1 rest)
  rw [if_neg h8]
  by_cases h9 : (c == 'A' || c == 'a') = true
  · rw [if_pos h9]; exact Nat.lt_succ_of_le (nextNums_length_le 6 rest)
  rw [if_neg h9]
  exfalso
  simp only [isPathCmd, Bool.or_eq_true] at hc
  simp only [Bool.or_eq_true, not_or] at h1 h2 h3 h4 h5 h6 h7 h8 h9
  have hz1 : ¬(c == 'Z') = true := by
    intro h
    rw [h] at hz
    simp at hz
  have hz2 : ¬(c == 'z') = true := by
    intro h
    rw [h] at hz
    simp at hz
  tauto

/-- Soundness of the fuel-based loop embedding: any fuel beyond the token
count computes the same segment list, so `parse_path_d`'s choice of
`tokens.length + 1` is as good as unbounded fuel (every loop step consumes
at least one token). -/
theorem parseLoopF_fuel_irrelevant :
    ∀ (f1 : Nat) (ts : List Tok) (st : PState) (f2 : Nat),
      ts.length < f1 → ts.length < f2 →
      parseLoopF f1 ts st = parseLoopF f2 ts st := by
  intro f1
  induction f1 with
  | zero => intro ts st f2 h1 h2; exact absurd h1 (Nat.not_lt_zero _)
  | succ f1 ih =>
    intro ts st f2 h1 h2
    cases f2 with
    | zero => exact absurd h2 (Nat.not_lt_zero _)
    | succ f2 =>
      cases ts with
      | nil => rfl
      | cons t rest =>
        simp only [List.length_cons] at h1 h2
        cases t with
        | cmd c =>
          by_cases hc : isPathCmd c
          · simp only [parseLoopF, hc, if_true]
            congr 1
            have hle := dispatch_length_le c
              { st with cmd := some c, lastCtrl := none } rest
            apply ih _ _ _ (by omega) (by omega)
          · simp only [parseLoopF, hc, if_false]
            exact ih _ _ _ (by omega) (by omega)
        | num q =>
          cases hcmd : st.cmd with
          | none =>
            simp only [parseLoopF, hcmd]
            exact ih _ _ _ (by omega) (by omega)
          | some c =>
            simp only [parseLoopF, hcmd]
            by_cases hz : (c == 'Z' || c == 'z') = true
            · simp only [hz, if_true]
              exact congrArg (zSegs st ++ ·)
                (ih rest (zReset st) f2 (by omega) (by omega))
            · by_cases hc : isPathCmd c
              · have hlt := dispatch_length_lt c st q rest hc
                  (Bool.eq_false_iff.mpr hz)
                simp only [List.length_cons] at hlt
                simp only [hz, hc, if_true, Bool.false_eq_true, if_false]
                congr 1
                apply ih _ _ _ (by omega) (by omega)
              · simp only [hz, hc, Bool.false_eq_true, if_false]
                exact ih _ _ _ (by omega) (by omega)
